import Mathlib

/-!
Verification of the allocation-tracking registry of the memory-debugging
shim (source files `src/hash_table.c` and `src/profiler.c`).

The registry is a uthash-backed map from allocation address to metadata,
embedded here as a list of `AllocationInfo` records kept in insertion
order (the `HASH_ITER` order of uthash is the order of `HASH_ADD` calls).
`HASH_FIND_PTR` returns the most recently added record for a key (bucket
chains are head-inserted), and `HASH_DEL` unlinks exactly the record that
was found.

Pointers are modelled as natural numbers (`0` is `NULL`).  Calls to the
real (unintercepted) allocator are modelled by Boolean success oracles,
and the metadata that `real_free_ptr` releases is returned explicitly so
the embedding keeps track of which records a routine destroys itself.
-/

/-- One entry of the registry, mirroring `allocation_info_t`:
`ptr` (the key), `size`, `timestamp`, `is_suspicious`, the owned
`stack_trace` buffer (`none` when the buffer allocation failed, i.e. the
C field is `NULL`) and `stack_depth`. -/
structure AllocationInfo where
  ptr : Nat
  size : Nat
  timestamp : Nat
  is_suspicious : Bool
  stack_trace : Option (List Nat)
  stack_depth : Nat
deriving DecidableEq

/-- The hash table `g_allocations`, in `HASH_ITER` (insertion) order. -/
abbrev Registry := List AllocationInfo

/-- Embeds `HASH_FIND_PTR(g_allocations, &ptr, found)`: the most recently added
record whose key equals `ptr` (uthash head-inserts into bucket chains, so
among duplicates the newest is found first). -/
def hashFind (ptr : Nat) (g : Registry) : Option AllocationInfo :=
  g.reverse.find? (fun i => i.ptr == ptr)

/-- Embeds `HASH_DEL` applied to the record `HASH_FIND_PTR` returned: unlink the
most recent record keyed by `ptr`. -/
def eraseLastMatch (ptr : Nat) (g : Registry) : Registry :=
  (g.reverse.eraseP (fun i => i.ptr == ptr)).reverse

/-- Embeds `hash_table_init`: `g_allocations = NULL`. -/
def hash_table_init (_g : Registry) : Registry := []

/-- Embeds `hash_table_add(ptr, size, trace, depth, is_suspicious)`.
`real_malloc_resolved` models `real_malloc_ptr != NULL`;
`meta_alloc_ok` models success of the metadata allocation;
`trace_alloc_ok` models success of the stack-trace buffer allocation.
The `trace` list carries exactly the `depth` captured frames, and
`timestamp` stands for the external `time(NULL)` value. -/
def hash_table_add (real_malloc_resolved meta_alloc_ok trace_alloc_ok : Bool)
    (ptr size : Nat) (trace : List Nat) (timestamp : Nat)
    (is_suspicious : Bool) (g : Registry) : Registry :=
  if ptr = 0 then g
  else if real_malloc_resolved = false then g
  else if meta_alloc_ok = false then g
  else
    let info : AllocationInfo :=
      if trace_alloc_ok then
        { ptr := ptr, size := size, timestamp := timestamp,
          is_suspicious := is_suspicious,
          stack_trace := some trace, stack_depth := trace.length }
      else
        { ptr := ptr, size := size, timestamp := timestamp,
          is_suspicious := is_suspicious,
          stack_trace := none, stack_depth := 0 }
    g ++ [info]

/-- Outcome of `hash_table_remove`: the table afterwards, and the records
whose metadata the routine itself released via `real_free_ptr` (the C
function returns `void`; nothing is handed back to its caller). -/
structure RemoveResult where
  table : Registry
  released : List AllocationInfo
deriving DecidableEq

/-- Embeds `hash_table_remove(ptr)`: find the record, unlink it under the lock,
then free its stack trace and struct outside the critical section.  A
missing key is ignored (per the source comment, detection of double or
invalid frees is deferred to a later phase). -/
def hash_table_remove (ptr : Nat) (g : Registry) : RemoveResult :=
  if ptr = 0 then { table := g, released := [] }
  else
    match hashFind ptr g with
    | none => { table := g, released := [] }
    | some found => { table := eraseLastMatch ptr g, released := [found] }

/-- Embeds `hash_table_find(ptr)`: returns `1` if found, `0` if not. -/
def hash_table_find (ptr : Nat) (g : Registry) : Nat :=
  if ptr = 0 then 0
  else
    match hashFind ptr g with
    | some _ => 1
    | none => 0

/-- One newline-delimited JSON record of the shutdown report. -/
inductive ReportRec where
  | header (leaks_count total_bytes : Nat)
  | leak (addr size : Nat) (frames : List Nat)
  | summary (real_leaks real_bytes libc_leaks libc_bytes : Nat)
deriving DecidableEq

/-- Embeds `output_leak_json(info)`: one `"leak"` record with the address,
size and up to 7 stack frames of the allocation (frame addresses; the
best-effort binary name comes from the external `dladdr` collaborator
and is not modelled).  Frames print only when `show_stack_traces` is
set, the trace buffer is non-`NULL` and the depth is positive. -/
def output_leak_json (show_stack_traces : Bool) (info : AllocationInfo) : ReportRec :=
  ReportRec.leak info.ptr info.size
    (if show_stack_traces = true ∧ info.stack_trace.isSome = true ∧ 0 < info.stack_depth then
      (info.stack_trace.getD []).take (min info.stack_depth 7)
    else [])

/-- The non-suspicious records, in iteration order (the records the
first counting pass of `hash_table_report_leaks` classifies as confirmed
leaks). -/
def confirmed_leaks (g : Registry) : Registry :=
  g.filter (fun i => i.is_suspicious = false)

/-- The suspicious (likely libc-internal) records, in iteration order. -/
def suspicious_leaks (g : Registry) : Registry :=
  g.filter (fun i => i.is_suspicious = true)

/-- The `confirmed_count` accumulated by the first pass. -/
def confirmed_count (g : Registry) : Nat := (confirmed_leaks g).length

/-- The `confirmed_bytes` accumulated by the first pass. -/
def confirmed_bytes (g : Registry) : Nat :=
  ((confirmed_leaks g).map (fun i => i.size)).sum

/-- The `suspicious_count` accumulated by the first pass. -/
def suspicious_count (g : Registry) : Nat := (suspicious_leaks g).length

/-- The `suspicious_bytes` accumulated by the first pass. -/
def suspicious_bytes (g : Registry) : Nat :=
  ((suspicious_leaks g).map (fun i => i.size)).sum

/-- Embeds `hash_table_report_leaks()`: returns the table afterwards (the
function only iterates, it never unlinks or frees a record) together
with the emitted JSON records: header plus one leak record per confirmed
leak when `confirmed_count > 0`, then the unconditional summary. -/
def hash_table_report_leaks (show_stack_traces : Bool) (g : Registry) :
    Registry × List ReportRec :=
  (g,
    (if 0 < confirmed_count g then
      ReportRec.header (confirmed_count g) (confirmed_bytes g)
        :: (confirmed_leaks g).map (output_leak_json show_stack_traces)
    else [])
    ++ [ReportRec.summary (confirmed_count g) (confirmed_bytes g)
          (suspicious_count g) (suspicious_bytes g)])

/-- Embeds `hash_table_cleanup()`: `HASH_DEL` every record and free its
metadata; `g_allocations = NULL` afterwards.  Returns the final table
and the records released via `real_free_ptr`, in iteration order. -/
def hash_table_cleanup (g : Registry) : Registry × List AllocationInfo :=
  ([], g)

/-- Classification of a deallocation request. -/
inductive FreeClass where
  | valid
  | invalid_free
deriving DecidableEq

/-- A corruption event record emitted on the diagnostic stream. -/
inductive CorruptionEvent where
  | double_free (addr : Nat)
  | invalid_free (addr : Nat)
deriving DecidableEq

/-- Modelled from the spec: `classifyFree(registry, pointer)` of the
Classifier (the interception/classification source file is not part of
the registry sources).  The registry records liveness only, no free
history, so the documented policy collapses double frees and foreign
pointers into the single untracked category: `Valid` when the pointer is
found live, `InvalidFree` otherwise. -/
def classify_free (g : Registry) (ptr : Nat) : FreeClass :=
  if hash_table_find ptr g = 1 then FreeClass.valid else FreeClass.invalid_free

/-- Outcome of the intercepted `free`: the registry afterwards, the
corruption events emitted, and whether the real `free` was forwarded. -/
structure FreeOutcome where
  table : Registry
  events : List CorruptionEvent
  forwarded : Bool
deriving DecidableEq

/-- Modelled from the spec: the `deallocate(pointer)` hook of the Interceptor
(its source file is not among the registry sources).  `NULL` is a no-op;
a pointer classified `Valid` is removed from the registry with no event;
an untracked pointer yields exactly one invalid-free corruption event
and no registry mutation; the real deallocation is always forwarded for
non-`NULL` pointers, since detection, not prevention, is the role of the
hook. -/
def intercept_free (ptr : Nat) (g : Registry) : FreeOutcome :=
  if ptr = 0 then { table := g, events := [], forwarded := false }
  else
    match classify_free g ptr with
    | FreeClass.valid =>
        { table := (hash_table_remove ptr g).table, events := [], forwarded := true }
    | FreeClass.invalid_free =>
        { table := g, events := [CorruptionEvent.invalid_free ptr], forwarded := true }

/-- One registry operation, for statements over operation sequences. -/
inductive RegistryOp where
  | add (real_malloc_resolved meta_alloc_ok trace_alloc_ok : Bool)
      (ptr size : Nat) (trace : List Nat) (timestamp : Nat) (is_suspicious : Bool)
  | remove (ptr : Nat)
  | reset
deriving DecidableEq

/-- Run one operation on the registry. -/
def run_op (g : Registry) (op : RegistryOp) : Registry :=
  match op with
  | RegistryOp.add r m t p s tr ts su => hash_table_add r m t p s tr ts su g
  | RegistryOp.remove p => (hash_table_remove p g).table
  | RegistryOp.reset => hash_table_init g

/-- Run a sequence of operations. -/
def run_ops (g : Registry) (ops : List RegistryOp) : Registry :=
  ops.foldl run_op g

/-- An `add` is fresh when its address is not currently tracked; the
other operations are unconstrained. -/
def op_fresh (g : Registry) : RegistryOp → Bool
  | RegistryOp.add _ _ _ p _ _ _ _ => hash_table_find p g == 0
  | _ => true

/-- Holds when every `add` of the sequence executes while its address is
not currently tracked (the discipline a correct allocator guarantees:
it never returns an address that is still live). -/
def fresh_adds (g : Registry) : List RegistryOp → Bool
  | [] => true
  | op :: rest => op_fresh g op && fresh_adds (run_op g op) rest

/-- The invariant that at most one record exists per address: the keys are pairwise distinct. -/
def at_most_one_per_addr (g : Registry) : Prop :=
  (g.map (fun i => i.ptr)).Nodup

instance (g : Registry) : Decidable (at_most_one_per_addr g) := by
  unfold at_most_one_per_addr; infer_instance

/-- Is this report record a `"leak"` record for address `a`? -/
def is_leak_at (a : Nat) : ReportRec → Bool
  | ReportRec.leak addr _ _ => addr == a
  | _ => false

/-- Every `"leak"` record for address `a` carries size `s0`
(vacuously true for the other record types). -/
def leak_size_ok (a s0 : Nat) : ReportRec → Bool
  | ReportRec.leak addr sz _ => !(addr == a) || (sz == s0)
  | _ => true

/-- Every `"header"` record carries total bytes `b0`
(vacuously true for the other record types). -/
def header_bytes_ok (b0 : Nat) : ReportRec → Bool
  | ReportRec.header _ b => b == b0
  | _ => true

/-! ## Helper lemmas -/

theorem hashFind_eq_none_iff (ptr : Nat) (g : Registry) :
    hashFind ptr g = none ↔ ∀ i ∈ g, ¬ i.ptr = ptr := by
  simp [hashFind, List.find?_eq_none]

theorem not_tracked_of_find_eq_zero {ptr : Nat} {g : Registry}
    (hp : ptr ≠ 0) (h : hash_table_find ptr g = 0) : ∀ i ∈ g, ¬ i.ptr = ptr := by
  intro i hi
  unfold hash_table_find at h
  rw [if_neg hp] at h
  cases hf : hashFind ptr g with
  | none => exact (hashFind_eq_none_iff ptr g).mp hf i hi
  | some a => rw [hf] at h; cases h

theorem countP_key_le_one {g : Registry}
    (hnd : (g.map (fun i => i.ptr)).Nodup) (p0 : Nat) :
    g.countP (fun i => i.ptr == p0) ≤ 1 := by
  have h := List.nodup_iff_count_le_one.mp hnd p0
  rw [List.count_eq_countP, List.countP_map] at h
  simpa [Function.comp] using h

theorem eraseP_eq_filter_not {α : Type} (p : α → Bool) (l : List α)
    (h : l.countP p ≤ 1) : l.eraseP p = l.filter (fun a => !(p a)) := by
  induction l with
  | nil => rfl
  | cons a t ih =>
    by_cases hpa : p a = true
    · have hcnt : t.countP p = 0 := by
        rw [List.countP_cons_of_pos _ _ hpa] at h
        omega
      have hself : t.filter (fun a => !(p a)) = t := by
        refine List.filter_eq_self.mpr (fun x hx => ?_)
        have := List.countP_eq_zero.mp hcnt x hx
        simp [this]
      rw [List.eraseP_cons_of_pos hpa, List.filter_cons_of_neg (by simp [hpa]), hself]
    · have hpa' : p a = false := by simpa using hpa
      have ht : t.countP p ≤ 1 := by
        rw [List.countP_cons_of_neg _ _ (by simp [hpa'])] at h
        exact h
      rw [List.eraseP_cons_of_neg (by simp [hpa']),
        List.filter_cons_of_pos (by simp [hpa']), ih ht]

theorem eraseLastMatch_eq_filter {g : Registry}
    (hnd : (g.map (fun i => i.ptr)).Nodup) (p0 : Nat) :
    eraseLastMatch p0 g = g.filter (fun i => !(i.ptr == p0)) := by
  unfold eraseLastMatch
  rw [eraseP_eq_filter_not _ _ (by
    rw [List.countP_reverse]
    exact countP_key_le_one hnd p0)]
  rw [List.filter_reverse, List.reverse_reverse]

theorem eraseLastMatch_sublist (p0 : Nat) (g : Registry) :
    List.Sublist (eraseLastMatch p0 g) g := by
  have h : List.Sublist (g.reverse.eraseP (fun i => i.ptr == p0)) g.reverse :=
    List.eraseP_sublist _
  have h2 := h.reverse
  simpa [eraseLastMatch] using h2

theorem remove_table_sublist (ptr : Nat) (g : Registry) :
    List.Sublist (hash_table_remove ptr g).table g := by
  unfold hash_table_remove
  by_cases h : ptr = 0
  · simp [h]
  · rw [if_neg h]
    cases hf : hashFind ptr g with
    | none => exact List.Sublist.refl g
    | some a => exact eraseLastMatch_sublist ptr g

theorem hashFind_append_self {info : AllocationInfo} {ptr : Nat}
    (g : Registry) (hinfo : info.ptr = ptr) :
    hashFind ptr (g ++ [info]) = some info := by
  simp [hashFind, List.reverse_append, List.find?_cons_of_pos, hinfo]

/-! ## Claim theorems -/

/-- C7: `reset()` (`hash_table_init`) is idempotent, and after a reset
every query comes back empty: `hash_table_find` returns `0` for every
address, and `hash_table_remove` detaches nothing — the table stays as
the reset left it and no metadata is released — whatever the registry
held before. -/
theorem reset_idempotent_then_all_queries_empty (g : Registry) (ptr : Nat) :
    hash_table_init (hash_table_init g) = hash_table_init g ∧
    hash_table_find ptr (hash_table_init g) = 0 ∧
    hash_table_remove ptr (hash_table_init g) =
      { table := hash_table_init g, released := [] } := by
  refine ⟨rfl, ?_, ?_⟩ <;>
    by_cases h : ptr = 0 <;>
      simp [hash_table_init, hash_table_find, hash_table_remove, hashFind, h]

/-- C8: when the real-allocator pointer is still unresolved
(`real_malloc_ptr == NULL`, the early-initialization state),
`hash_table_add` returns without tracking: the registry is unchanged,
whatever the other arguments are, so such allocations can never be
reported as leaks. -/
theorem add_skips_tracking_before_bootstrap (m t : Bool) (ptr size : Nat)
    (trace : List Nat) (ts : Nat) (susp : Bool) (g : Registry) :
    hash_table_add false m t ptr size trace ts susp g = g := by
  by_cases h : ptr = 0 <;> simp [hash_table_add, h]

/-- C9: when the stack-trace buffer allocation fails during
`hash_table_add`, the record is still created and appended to the
registry, with a `NULL` trace buffer and recorded depth `0`: the failure
degrades the detail of the record but never drops the record. -/
theorem trace_alloc_failure_still_registers (ptr size : Nat) (trace : List Nat)
    (ts : Nat) (susp : Bool) (g : Registry) (hptr : ptr ≠ 0) :
    hash_table_add true true false ptr size trace ts susp g =
      g ++ [{ ptr := ptr, size := size, timestamp := ts, is_suspicious := susp,
              stack_trace := none, stack_depth := 0 }] := by
  simp [hash_table_add, hptr]

/-- Witness for C9 at a concrete input. -/
theorem trace_alloc_failure_still_registers_w :
    (3 : Nat) ≠ 0 ∧
    hash_table_add true true false 3 64 [9, 9] 5 false [] =
      [{ ptr := 3, size := 64, timestamp := 5, is_suspicious := false,
         stack_trace := none, stack_depth := 0 }] :=
  ⟨by decide, trace_alloc_failure_still_registers 3 64 [9, 9] 5 false [] (by decide)⟩

/-- C10: emitting the leak report leaves the registry exactly as it was
(`hash_table_report_leaks` only reads the table), and it is the separate
`hash_table_cleanup` that unlinks every record, releasing all metadata
and leaving the table empty. -/
theorem report_leaves_registry_unchanged (show_st : Bool) (g : Registry) :
    (hash_table_report_leaks show_st g).1 = g ∧
    hash_table_cleanup g = ([], g) :=
  ⟨rfl, rfl⟩

/-- C4 counterexample: `hash_table_remove` does not return ownership of
the detached record to its caller — the C function returns `void` and
releases the metadata itself via `real_free_ptr` (modelled by the
`released` component), so after the call the caller holds nothing. -/
theorem remove_releases_metadata_itself :
    (hash_table_remove 1 [AllocationInfo.mk 1 4 0 false none 0]).released =
        [AllocationInfo.mk 1 4 0 false none 0] ∧
    ¬ ((hash_table_remove 1 [AllocationInfo.mk 1 4 0 false none 0]).released = []) := by
  decide

/-- C4 (amended): `hash_table_remove(address)` finds and detaches the
record for the address if present, then itself releases the metadata of
the detached record outside the lock (returning nothing to the caller,
as the C return type is `void`); if the address is not tracked, the call
is silently ignored — the registry is unchanged and nothing is released,
with no "not present" result observable by the caller. -/
theorem remove_detaches_or_ignores (ptr : Nat) (g : Registry)
    (hnd : (g.map (fun i => i.ptr)).Nodup) :
    (ptr ≠ 0 → ∀ found, hashFind ptr g = some found →
        hash_table_remove ptr g =
            { table := g.filter (fun i => !(i.ptr == ptr)), released := [found] } ∧
          found ∈ g ∧ found.ptr = ptr) ∧
    (hash_table_find ptr g = 0 →
        hash_table_remove ptr g = { table := g, released := [] }) := by
  constructor
  · intro hp found hf
    have hf' : g.reverse.find? (fun i => i.ptr == ptr) = some found := hf
    refine ⟨?_, ?_, ?_⟩
    · unfold hash_table_remove
      rw [if_neg hp, hf, eraseLastMatch_eq_filter hnd]
    · exact List.mem_reverse.mp (List.mem_of_find?_eq_some hf')
    · have := List.find?_some hf'
      simpa using this
  · intro h0
    unfold hash_table_remove
    by_cases hp : ptr = 0
    · rw [if_pos hp]
    · rw [if_neg hp]
      have hnone : hashFind ptr g = none := by
        cases hfp : hashFind ptr g with
        | none => rfl
        | some a =>
          exfalso
          unfold hash_table_find at h0
          rw [if_neg hp, hfp] at h0
          cases h0
      rw [hnone]

/-- Witness for C4 (amended) at a concrete input: removing the tracked
address `1`, and removing the untracked address `2`. -/
theorem remove_detaches_or_ignores_w :
    (([AllocationInfo.mk 1 4 0 false none 0] : Registry).map
        (fun i => i.ptr)).Nodup ∧
    (1 : Nat) ≠ 0 ∧
    hashFind 1 [AllocationInfo.mk 1 4 0 false none 0] =
        some (AllocationInfo.mk 1 4 0 false none 0) ∧
    hash_table_find 2 [AllocationInfo.mk 1 4 0 false none 0] = 0 ∧
    (hash_table_remove 1 [AllocationInfo.mk 1 4 0 false none 0] =
        { table := ([AllocationInfo.mk 1 4 0 false none 0] : Registry).filter
            (fun i => !(i.ptr == 1)),
          released := [AllocationInfo.mk 1 4 0 false none 0] } ∧
      AllocationInfo.mk 1 4 0 false none 0 ∈
        ([AllocationInfo.mk 1 4 0 false none 0] : Registry) ∧
      (AllocationInfo.mk 1 4 0 false none 0).ptr = 1) ∧
    hash_table_remove 2 [AllocationInfo.mk 1 4 0 false none 0] =
      { table := [AllocationInfo.mk 1 4 0 false none 0], released := [] } :=
  ⟨by decide, by decide, by decide, by decide,
    (remove_detaches_or_ignores 1 _ (by decide)).1 (by decide) _ (by decide),
    (remove_detaches_or_ignores 2 _ (by decide)).2 (by decide)⟩

/-- C5: the `"header"` record is present in the shutdown report exactly
when at least one confirmed (non-suspicious) record is live, while the
`"summary"` record — carrying the confirmed count and bytes and the
suspicious count and bytes — is emitted unconditionally, even with zero
leaks. -/
theorem header_iff_confirmed_summary_always (show_st : Bool) (g : Registry) :
    ((∃ n b, ReportRec.header n b ∈ (hash_table_report_leaks show_st g).2) ↔
        ∃ i ∈ g, i.is_suspicious = false) ∧
    ReportRec.summary (confirmed_count g) (confirmed_bytes g)
        (suspicious_count g) (suspicious_bytes g) ∈
      (hash_table_report_leaks show_st g).2 := by
  have hiff : 0 < confirmed_count g ↔ ∃ i ∈ g, i.is_suspicious = false := by
    simp [confirmed_count, confirmed_leaks, ← List.countP_eq_length_filter]
  constructor
  · constructor
    · rintro ⟨n, b, hmem⟩
      by_cases hcc : 0 < confirmed_count g
      · exact hiff.mp hcc
      · exfalso
        unfold hash_table_report_leaks at hmem
        rw [if_neg hcc] at hmem
        simp at hmem
    · intro hex
      refine ⟨confirmed_count g, confirmed_bytes g, ?_⟩
      unfold hash_table_report_leaks
      rw [if_pos (hiff.mpr hex)]
      simp
  · unfold hash_table_report_leaks
    simp

/-- C6 counterexample: `hash_table_add` performs no duplicate check
(`HASH_ADD_PTR` is unconditional), so inserting the same address twice
leaves two live records keyed by that address. -/
theorem insert_can_duplicate_live_address :
    ((run_ops [] [RegistryOp.add true true true 1 8 [] 0 false,
                  RegistryOp.add true true true 1 8 [] 0 false]).map
        (fun i => i.ptr)) = [1, 1] ∧
    ¬ at_most_one_per_addr
        (run_ops [] [RegistryOp.add true true true 1 8 [] 0 false,
                     RegistryOp.add true true true 1 8 [] 0 false]) := by
  decide

/-- Each registry operation preserves key uniqueness, provided an `add`
only executes while its address is untracked. -/
theorem run_op_preserves_unique (g : Registry) (op : RegistryOp)
    (h0 : at_most_one_per_addr g)
    (hc : op_fresh g op = true) :
    at_most_one_per_addr (run_op g op) := by
  cases op with
  | add r m t p s tr ts su =>
    simp only [op_fresh, beq_iff_eq] at hc
    show at_most_one_per_addr (hash_table_add r m t p s tr ts su g)
    unfold hash_table_add
    by_cases hp : p = 0
    · simpa [hp] using h0
    · rw [if_neg hp]
      cases r with
      | false => simpa using h0
      | true =>
        cases m with
        | false => simpa using h0
        | true =>
          have hnot : ∀ i ∈ g, ¬ i.ptr = p := not_tracked_of_find_eq_zero hp hc
          unfold at_most_one_per_addr at h0 ⊢
          cases t <;>
            · rw [if_neg (by decide : ¬ (true = false)),
                if_neg (by decide : ¬ (true = false))]
              rw [List.map_append, List.nodup_append]
              refine ⟨h0, by simp, ?_⟩
              intro a ha hb
              simp at hb
              rcases List.mem_map.mp ha with ⟨i, hi, hip⟩
              exact hnot i hi (by rw [hip, hb])
  | remove p =>
    unfold run_op
    have hsub := (remove_table_sublist p g).map (fun i => i.ptr)
    exact List.Nodup.sublist hsub h0
  | reset =>
    simp [run_op, hash_table_init, at_most_one_per_addr]

/-- C6 (amended): `hash_table_add` itself enforces no uniqueness — it
adds unconditionally — but after any sequence of insert, remove and
reset operations in which every insert executes while its address is
not currently tracked (the discipline a correct allocator guarantees,
since it never hands out a live address twice), at most one record
exists per address at any time. -/
theorem at_most_one_record_per_address (g : Registry) (ops : List RegistryOp)
    (h0 : at_most_one_per_addr g) (hf : fresh_adds g ops = true) :
    at_most_one_per_addr (run_ops g ops) := by
  induction ops generalizing g with
  | nil => simpa [run_ops] using h0
  | cons op rest ih =>
    simp only [fresh_adds, Bool.and_eq_true] at hf
    have h1 := run_op_preserves_unique g op h0 hf.1
    have hrun : run_ops g (op :: rest) = run_ops (run_op g op) rest := by
      simp [run_ops]
    rw [hrun]
    exact ih _ h1 hf.2

/-- Witness for C6 (amended) at a concrete input: add address `1`, free
it, add it again — every add is fresh, and uniqueness holds at the
end. -/
theorem at_most_one_record_per_address_w :
    at_most_one_per_addr [] ∧
    fresh_adds [] [RegistryOp.add true true true 1 8 [] 0 false,
                   RegistryOp.remove 1,
                   RegistryOp.add true true true 1 8 [] 0 false] = true ∧
    at_most_one_per_addr
      (run_ops [] [RegistryOp.add true true true 1 8 [] 0 false,
                   RegistryOp.remove 1,
                   RegistryOp.add true true true 1 8 [] 0 false]) :=
  ⟨by decide, by decide,
    at_most_one_record_per_address [] _ (by decide) (by decide)⟩

/-- C1: deallocating a non-`NULL` address that is not tracked by the
registry (which covers every address never returned by a successful
allocation: stack addresses, arbitrary constants) emits exactly one
invalid-free corruption event and leaves the registry exactly as it
was — no record is added or removed. -/
theorem invalid_free_one_event_registry_unchanged (ptr : Nat) (g : Registry)
    (hptr : ptr ≠ 0) (huntracked : hash_table_find ptr g = 0) :
    (intercept_free ptr g).events = [CorruptionEvent.invalid_free ptr] ∧
    (intercept_free ptr g).table = g := by
  unfold intercept_free classify_free
  rw [if_neg hptr, huntracked]
  simp

/-- Witness for C1 at a concrete input: freeing the untracked address
`5` against a registry holding only address `2`. -/
theorem invalid_free_one_event_registry_unchanged_w :
    (5 : Nat) ≠ 0 ∧
    hash_table_find 5 [{ ptr := 2, size := 1, timestamp := 0, is_suspicious := false,
                         stack_trace := none, stack_depth := 0 }] = 0 ∧
    ((intercept_free 5 [{ ptr := 2, size := 1, timestamp := 0, is_suspicious := false,
                          stack_trace := none, stack_depth := 0 }]).events =
        [CorruptionEvent.invalid_free 5] ∧
      (intercept_free 5 [{ ptr := 2, size := 1, timestamp := 0, is_suspicious := false,
                           stack_trace := none, stack_depth := 0 }]).table =
        [{ ptr := 2, size := 1, timestamp := 0, is_suspicious := false,
           stack_trace := none, stack_depth := 0 }]) :=
  ⟨by decide, by decide,
    invalid_free_one_event_registry_unchanged 5 _ (by decide) (by decide)⟩

/-- C2: a pointer that is successfully allocated (hence tracked) and
then deallocated once produces zero corruption events on that first
deallocation; a second deallocation of the same pointer produces
exactly one corruption event — of kind invalid-free, the documented
policy of a registry that records liveness but no free history. -/
theorem second_free_one_event_first_free_none (g : Registry) (ptr size : Nat)
    (trace : List Nat) (ts : Nat) (susp : Bool)
    (hptr : ptr ≠ 0) (hfresh : hash_table_find ptr g = 0) :
    (intercept_free ptr (hash_table_add true true true ptr size trace ts susp g)).events
        = [] ∧
    (intercept_free ptr
        ((intercept_free ptr
            (hash_table_add true true true ptr size trace ts susp g)).table)).events
      = [CorruptionEvent.invalid_free ptr] := by
  have hadd : hash_table_add true true true ptr size trace ts susp g =
      g ++ [AllocationInfo.mk ptr size ts susp (some trace) trace.length] := by
    simp [hash_table_add, hptr]
  have hfind1 : hashFind ptr
      (g ++ [AllocationInfo.mk ptr size ts susp (some trace) trace.length]) =
      some (AllocationInfo.mk ptr size ts susp (some trace) trace.length) :=
    hashFind_append_self g rfl
  have hfindnum : hash_table_find ptr
      (g ++ [AllocationInfo.mk ptr size ts susp (some trace) trace.length]) = 1 := by
    unfold hash_table_find
    rw [if_neg hptr, hfind1]
  have herase : eraseLastMatch ptr
      (g ++ [AllocationInfo.mk ptr size ts susp (some trace) trace.length]) = g := by
    unfold eraseLastMatch
    rw [List.reverse_append]
    simp [List.eraseP_cons_of_pos]
  have hrem : (hash_table_remove ptr
      (g ++ [AllocationInfo.mk ptr size ts susp (some trace) trace.length])).table
      = g := by
    unfold hash_table_remove
    rw [if_neg hptr, hfind1]
    exact herase
  have hfree1 : intercept_free ptr
      (g ++ [AllocationInfo.mk ptr size ts susp (some trace) trace.length]) =
      { table := g, events := [], forwarded := true } := by
    unfold intercept_free classify_free
    rw [if_neg hptr, hfindnum]
    simp [hrem]
  have hfree2 : (intercept_free ptr g) =
      { table := g, events := [CorruptionEvent.invalid_free ptr],
        forwarded := true } := by
    unfold intercept_free classify_free
    rw [if_neg hptr, hfresh]
    simp
  rw [hadd, hfree1]
  simp [hfree2]

/-- C3 counterexample: a suspicious record that is still live at
shutdown gets no individual `"leak"` record at all — its bytes reach
only the summary aggregate — so it is false that every allocation
inserted and never removed appears exactly once in the leak report. -/
theorem suspicious_leak_absent_from_report :
    AllocationInfo.mk 1 8 0 true (some []) 0 ∈
        ([AllocationInfo.mk 1 8 0 true (some []) 0] : Registry) ∧
    ¬ ((hash_table_report_leaks true
          [AllocationInfo.mk 1 8 0 true (some []) 0]).2.countP (is_leak_at 1) = 1) := by
  decide

/-- C3 (amended): every *confirmed* (non-suspicious) record inserted
into the registry and never removed appears exactly once in the leak
report, its `"leak"` record carries its recorded size, and every
`"header"` record carries as total bytes the sum of the sizes of all
confirmed leaked records.  (Suspicious records get no individual leak
record; they are only aggregated into the summary.)  Addresses of live
records are assumed pairwise distinct, as delivered by an allocator
that never returns a live address again. -/
theorem confirmed_leak_reported_once_with_size (show_st : Bool) (g : Registry)
    (hnd : (g.map (fun i => i.ptr)).Nodup)
    (info : AllocationInfo) (hmem : info ∈ g) (hconf : info.is_suspicious = false) :
    (hash_table_report_leaks show_st g).2.countP (is_leak_at info.ptr) = 1 ∧
    (hash_table_report_leaks show_st g).2.all (leak_size_ok info.ptr info.size) = true ∧
    (hash_table_report_leaks show_st g).2.all
      (header_bytes_ok (((g.filter (fun i => i.is_suspicious = false)).map
          (fun i => i.size)).sum)) = true := by
  have hmemc : info ∈ confirmed_leaks g :=
    List.mem_filter.mpr ⟨hmem, by simp [hconf]⟩
  have hcc : 0 < confirmed_count g :=
    List.length_pos.mpr (List.ne_nil_of_mem hmemc)
  have hrep : (hash_table_report_leaks show_st g).2 =
      ReportRec.header (confirmed_count g) (confirmed_bytes g)
        :: ((confirmed_leaks g).map (output_leak_json show_st)
              ++ [ReportRec.summary (confirmed_count g) (confirmed_bytes g)
                    (suspicious_count g) (suspicious_bytes g)]) := by
    unfold hash_table_report_leaks
    rw [if_pos hcc]
    rfl
  have hsub : List.Sublist (confirmed_leaks g) g := List.filter_sublist g
  refine ⟨?_, ?_, ?_⟩
  · rw [hrep]
    have hmapcnt :
        ((confirmed_leaks g).map (output_leak_json show_st)).countP
            (is_leak_at info.ptr) =
          (confirmed_leaks g).countP (fun i => i.ptr == info.ptr) := by
      rw [List.countP_map]
      refine List.countP_congr (fun x _ => ?_)
      simp [Function.comp, output_leak_json, is_leak_at]
    have hle : (confirmed_leaks g).countP (fun i => i.ptr == info.ptr) ≤ 1 :=
      le_trans (hsub.countP_le _) (countP_key_le_one hnd info.ptr)
    have hge : 0 < (confirmed_leaks g).countP (fun i => i.ptr == info.ptr) :=
      List.countP_pos_iff.mpr ⟨info, hmemc, by simp⟩
    simp [List.countP_cons, List.countP_append, is_leak_at, hmapcnt]
    omega
  · rw [hrep, List.all_eq_true]
    intro x hx
    rcases List.mem_cons.mp hx with hx | hx
    · simp [hx, leak_size_ok]
    rcases List.mem_append.mp hx with hx | hx
    · rcases List.mem_map.mp hx with ⟨i, hi, hfi⟩
      have hig : i ∈ g := hsub.mem hi
      by_cases hpq : i.ptr = info.ptr
      · have : i = info :=
          List.inj_on_of_nodup_map hnd hig hmem hpq
        subst this
        simp [← hfi, output_leak_json, leak_size_ok]
      · simp [← hfi, output_leak_json, leak_size_ok, hpq]
    · simp [List.mem_singleton.mp hx, leak_size_ok]
  · rw [hrep, List.all_eq_true]
    intro x hx
    rcases List.mem_cons.mp hx with hx | hx
    · simp [hx, header_bytes_ok, confirmed_bytes, confirmed_leaks]
    rcases List.mem_append.mp hx with hx | hx
    · rcases List.mem_map.mp hx with ⟨i, _, hfi⟩
      simp [← hfi, output_leak_json, header_bytes_ok]
    · simp [List.mem_singleton.mp hx, header_bytes_ok]

/-- Witness for C3 (amended) at a concrete input: a registry holding a
single confirmed record of address `1` and size `8`. -/
theorem confirmed_leak_reported_once_with_size_w :
    (([AllocationInfo.mk 1 8 0 false (some []) 0] : Registry).map
        (fun i => i.ptr)).Nodup ∧
    AllocationInfo.mk 1 8 0 false (some []) 0 ∈
        ([AllocationInfo.mk 1 8 0 false (some []) 0] : Registry) ∧
    (AllocationInfo.mk 1 8 0 false (some []) 0).is_suspicious = false ∧
    ((hash_table_report_leaks true [AllocationInfo.mk 1 8 0 false (some []) 0]).2.countP
        (is_leak_at (AllocationInfo.mk 1 8 0 false (some []) 0).ptr) = 1 ∧
      (hash_table_report_leaks true [AllocationInfo.mk 1 8 0 false (some []) 0]).2.all
        (leak_size_ok (AllocationInfo.mk 1 8 0 false (some []) 0).ptr
          (AllocationInfo.mk 1 8 0 false (some []) 0).size) = true ∧
      (hash_table_report_leaks true [AllocationInfo.mk 1 8 0 false (some []) 0]).2.all
        (header_bytes_ok
          ((([AllocationInfo.mk 1 8 0 false (some []) 0] : Registry).filter
              (fun i => i.is_suspicious = false)).map (fun i => i.size)).sum) = true) :=
  ⟨by decide, by decide, by decide,
    confirmed_leak_reported_once_with_size true _ (by decide) _ (by decide) (by decide)⟩

/-- Witness for C2 at a concrete input: allocate address `7` of size
`16`, free it (no event), free it again (one invalid-free event). -/
theorem second_free_one_event_first_free_none_w :
    (7 : Nat) ≠ 0 ∧ hash_table_find 7 [] = 0 ∧
    ((intercept_free 7 (hash_table_add true true true 7 16 [1] 0 false [])).events
        = [] ∧
      (intercept_free 7
          ((intercept_free 7
              (hash_table_add true true true 7 16 [1] 0 false [])).table)).events
        = [CorruptionEvent.invalid_free 7]) :=
  ⟨by decide, by decide,
    second_free_one_event_first_free_none [] 7 16 [1] 0 false (by decide) (by decide)⟩
